import Mathlib

/-!
Verification of the phenology detection engine
(`src/scripts/phenology_metrics.py`, function `analyze_phenology`).

The per-group pipeline is embedded shallowly over `ℚ`:
raw weekly observations are linearly interpolated onto a daily grid,
smoothed by a discrete correlation with a weight vector (the Gaussian
kernel of `scipy.ndimage.gaussian_filter1d` is transcendental, so the
smoother is parameterised by its rational weight vector; every claim
proved through it is independent of the concrete weights), and the
boundary detector and metrics compiler are translated line by line.
-/

namespace Phenology

/-- `numpy` `.max()` of a nonempty array; `0` on the empty list (never used
on empty input by the code, which guards groups to be nonempty). -/
def listMaxD {α : Type} [LinearOrder α] (d : α) : List α → α
  | [] => d
  | [x] => x
  | x :: y :: t => max x (listMaxD d (y :: t))

/-- `numpy` `.min()` of a nonempty array; `0` on the empty list. -/
def listMinD {α : Type} [LinearOrder α] (d : α) : List α → α
  | [] => d
  | [x] => x
  | x :: y :: t => min x (listMinD d (y :: t))

/-- `smoothed_counts.max()` (line 56). -/
def listMax (s : List ℚ) : ℚ := listMaxD 0 s

/-- `smoothed_counts.min()` (line 55). -/
def listMin (s : List ℚ) : ℚ := listMinD 0 s

/-- `np.argmax` (line 60): index of the first occurrence of the maximum.
`np.argmax` scans left to right and only replaces the current best on a
strictly larger value, so the head wins exactly when it is at least every
later value. -/
def npArgmax : List ℚ → ℕ
  | [] => 0
  | [_] => 0
  | x :: y :: t => if listMax (y :: t) ≤ x then 0 else npArgmax (y :: t) + 1

/-- Line 57: `threshold = min_val + (threshold_pct / 100) * (max_val - min_val)`. -/
def threshold (s : List ℚ) (pct : ℚ) : ℚ :=
  listMin s + pct / 100 * (listMax s - listMin s)

/-- Line 65: `indices_before_peak = np.where(doy_continuous < B_doy)[0]`,
where `doy_continuous = np.arange(doy.min(), doy.max() + 1)`, so entry `i`
holds day-of-year `doy0 + i`. -/
def indicesBeforePeak (doy0 : ℤ) (n : ℕ) (bdoy : ℤ) : List ℕ :=
  (List.range n).filter (fun i => decide (doy0 + (i : ℤ) < bdoy))

/-- Line 78: `indices_after_peak = np.where(doy_continuous > B_doy)[0]`. -/
def indicesAfterPeak (doy0 : ℤ) (n : ℕ) (bdoy : ℤ) : List ℕ :=
  (List.range n).filter (fun i => decide (bdoy < doy0 + (i : ℤ)))

/-- Lines 64-75: the start index.  `np.argmax` over the Boolean mask
`smoothed[indices_before_peak] > threshold`, guarded by `np.any`, returns
the position of the first `True`, i.e. the first listed index whose
smoothed value strictly exceeds the threshold; when the guard fails the
code falls back to index `0`. -/
def start_index (s : List ℚ) (pct : ℚ) (doy0 : ℤ) : ℕ :=
  match (indicesBeforePeak doy0 s.length (doy0 + (npArgmax s : ℤ))).find?
      (fun i => decide (threshold s pct < s.getD i 0)) with
  | some i => i
  | none => 0

/-- Lines 77-87: the end index.  First index after the peak whose smoothed
value is `<= threshold` (again `np.any` + `np.argmax` over a Boolean mask);
`len(smoothed) - 1` when there is none or when no index lies after the
peak. -/
def end_index (s : List ℚ) (pct : ℚ) (doy0 : ℤ) : ℕ :=
  if (indicesAfterPeak doy0 s.length (doy0 + (npArgmax s : ℤ))).isEmpty then s.length - 1
  else
    match (indicesAfterPeak doy0 s.length (doy0 + (npArgmax s : ℤ))).find?
        (fun i => decide (s.getD i 0 ≤ threshold s pct)) with
    | some i => i
    | none => s.length - 1

/-- Line 70 / 73: `A_doy`, the season-start day of year. -/
def A_doy (s : List ℚ) (pct : ℚ) (doy0 : ℤ) : ℤ := doy0 + (start_index s pct doy0 : ℤ)

/-- Line 61: `B_doy`, the peak day of year. -/
def B_doy (s : List ℚ) (doy0 : ℤ) : ℤ := doy0 + (npArgmax s : ℤ)

/-- Line 89: `C_doy`, the season-end day of year. -/
def C_doy (s : List ℚ) (pct : ℚ) (doy0 : ℤ) : ℤ := doy0 + (end_index s pct doy0 : ℤ)

/-- Line 93: `duration_days = C_doy - A_doy`. -/
def duration_days (s : List ℚ) (pct : ℚ) (doy0 : ℤ) : ℤ :=
  C_doy s pct doy0 - A_doy s pct doy0

/-! ### Reference (spec-side) boundary definitions, for the refinement claim.
These follow the wording of spec section 4.3 and are compared with the
code-side definitions above. -/

/-- Spec: the index of the first occurrence of the maximum value in the
smoothed series (ties broken by earliest day-of-year). -/
def specPeakIdx (s : List ℚ) : ℕ := s.findIdx (fun x => decide (x = listMax s))

/-- Spec: among indices strictly before the peak, the first index (scanning
from the domain's start forward) whose smoothed value exceeds the threshold;
the domain's first index when none exists. -/
def specStartIdx (s : List ℚ) (thr : ℚ) : ℕ :=
  match (List.range (specPeakIdx s)).find? (fun i => decide (thr < s.getD i 0)) with
  | some i => i
  | none => 0

/-- Spec: among indices strictly after the peak, the first index (scanning
forward from the peak) whose smoothed value is at or below the threshold;
the domain's last index when none exists. -/
def specEndIdx (s : List ℚ) (thr : ℚ) : ℕ :=
  match (List.range' (specPeakIdx s + 1) (s.length - (specPeakIdx s + 1))).find?
      (fun i => decide (s.getD i 0 ≤ thr)) with
  | some i => i
  | none => s.length - 1

/-! ### Metrics compiler (lines 95-151) -/

/-- Line 99: `np.median` — the middle element of the sorted data, or the
mean of the two middle elements for even length. -/
def npMedian (xs : List ℚ) : ℚ :=
  let ss := List.insertionSort (fun a b : ℚ => a ≤ b) xs
  let n := xs.length
  if n = 0 then 0
  else if n % 2 = 1 then ss.getD (n / 2) 0
  else (ss.getD (n / 2 - 1) 0 + ss.getD (n / 2) 0) / 2

/-- Lines 102-103: the crossing test between the values at positions
`i-1` and `i`. -/
def crossesAt (m a b : ℚ) : Bool :=
  (decide (a < m) && decide (m ≤ b)) || (decide (m ≤ a) && decide (b < m))

/-- Lines 100-104: the loop `for i in range(1, len(search_counts))`,
counting positions whose adjacent pair crosses the median. -/
def crossCount (m : ℚ) (xs : List ℚ) : ℕ :=
  (List.range (xs.length - 1)).countP (fun i => crossesAt m (xs.getD i 0) (xs.getD (i + 1) 0))

/-- Lines 99-104: `median_crossings` with the median of the whole raw series. -/
def median_crossings (xs : List ℚ) : ℕ := crossCount (npMedian xs) xs

/-- Spec-side reference definition of the crossing count: a left-to-right
scan over consecutive raw observations. -/
def specCrossings (m : ℚ) : List ℚ → ℕ
  | a :: b :: t => (if (a < m ∧ m ≤ b) ∨ (m ≤ a ∧ b < m) then 1 else 0) + specCrossings m (b :: t)
  | _ => 0

/-- Line 96: `non_zero_counts = search_counts[search_counts > 0]`
(the active weeks). -/
def non_zero_counts (counts : List ℚ) : List ℚ := counts.filter (fun x => decide (0 < x))

/-- Line 149: `max_raw_count = search_counts.max()` (over all weeks). -/
def max_raw_count (counts : List ℚ) : ℚ := listMax counts

/-- Line 150: `min_raw_count = search_counts.min()` (over all weeks). -/
def min_raw_count (counts : List ℚ) : ℚ := listMin counts

/-- Lines 107-108: `season_mask = (doy >= A_doy) & (doy <= C_doy)`;
`season_counts = search_counts[season_mask]`. -/
def season_counts (doy : List ℤ) (counts : List ℚ) (a c : ℤ) : List ℚ :=
  ((doy.zip counts).filter (fun p => decide (a ≤ p.1) && decide (p.1 ≤ c))).map Prod.snd

/-- Lines 109-114: mean of the strictly positive in-season raw counts,
`0` when there are none. -/
def avg_count_in_season (doy : List ℤ) (counts : List ℚ) (a c : ℤ) : ℚ :=
  let nz := non_zero_counts (season_counts doy counts a c)
  if nz.isEmpty then 0 else nz.sum / (nz.length : ℚ)

/-! ### Resampler (lines 47-49) and Smoother (line 52) -/

/-- `scipy.interpolate.interp1d(doy, counts, kind='linear',
fill_value='extrapolate')` evaluated at an integer day: linear interpolation
on the segment containing the query point, extrapolating with the nearest
segment outside the observed range. -/
def interpAt : List (ℤ × ℚ) → ℤ → ℚ
  | [], _ => 0
  | [(_, y)], _ => y
  | (x0, y0) :: (x1, y1) :: t, x =>
    if x ≤ x1 then y0 + (y1 - y0) * ((x : ℚ) - (x0 : ℚ)) / ((x1 : ℚ) - (x0 : ℚ))
    else interpAt ((x1, y1) :: t) x

/-- Line 47: `doy_continuous = np.arange(doy.min(), doy.max() + 1)`. -/
def doyGrid (lo hi : ℤ) : List ℤ :=
  (List.range (hi + 1 - lo).toNat).map (fun (i : ℕ) => lo + (i : ℤ))

/-- Lines 47-49: the interpolated daily series. -/
def continuousSeries (doy : List ℤ) (counts : List ℚ) : List ℚ :=
  (doyGrid (listMinD 0 doy) (listMaxD 0 doy)).map (interpAt (doy.zip counts))

/-- Boundary index folding of `scipy.ndimage` mode `'reflect'`
(`(d c b a | a b c d | d c b a)`): fold into `[0, 2n)` and mirror the upper
half. -/
def reflectIdx (n : ℕ) (i : ℤ) : ℕ :=
  if n = 0 then 0
  else
    let j := i % (2 * (n : ℤ))
    if j < (n : ℤ) then j.toNat else (2 * (n : ℤ) - 1 - j).toNat

/-- Line 52: `gaussian_filter1d(xs, sigma)` correlates the series with the
normalized Gaussian kernel of radius `int(4 * sigma + 0.5)` in mode
`'reflect'`.  The kernel weights are transcendental, so the smoother is
modelled parametrically in its weight vector `w` (odd length `2r + 1`,
centre at position `r`): `out[i] = sum_k w[k] * xs[reflect (i + k - r)]`. -/
def correlate1d (w : List ℚ) (xs : List ℚ) : List ℚ :=
  (List.range xs.length).map fun (i : ℕ) =>
    (List.range w.length).foldl
      (fun acc (k : ℕ) => acc + w.getD k 0 *
        xs.getD (reflectIdx xs.length ((i : ℤ) + (k : ℤ) - ((w.length / 2 : ℕ) : ℤ))) 0) 0

/-! ### The external filter's handling of `sigma`
(`scipy.ndimage.gaussian_filter1d`, called at line 52; the repository code
itself performs no validation of `sigma`). -/

/-- The two failure modes of the external filter's parameter handling. -/
inductive SmoothError where
  | radiusNegative : SmoothError
  | divisionByZero : SmoothError
deriving DecidableEq

/-- Python `int(...)`: truncation toward zero. -/
def pyint (q : ℚ) : ℤ := if 0 ≤ q then ⌊q⌋ else ⌈q⌉

/-- `lw = int(truncate * sd + 0.5)` with the default `truncate = 4.0`. -/
def gaussianRadius (sigma : ℚ) : ℤ := pyint (4 * sigma + 1 / 2)

/-- The parameter handling of `scipy.ndimage.gaussian_filter1d`: a negative
radius is rejected (`ValueError`), then the kernel computation divides by
`sigma ** 2` (`ZeroDivisionError` when `sigma = 0`); otherwise the filter
proceeds. -/
def gaussianFilterCheck (sigma : ℚ) : Except SmoothError Unit :=
  if gaussianRadius sigma < 0 then Except.error SmoothError.radiusNegative
  else if sigma * sigma = 0 then Except.error SmoothError.divisionByZero
  else Except.ok ()

/-! ### The per-group record (lines 30-153) -/

/-- The numeric fields of the output record compiled at lines 125-151
(identity fields and date formatting omitted; the reference code rounds
some fields for display, which is omitted here and is the identity on
every value a claim compares against). -/
structure GroupRecord where
  season_start_doy : ℤ
  peak_doy : ℤ
  season_end_doy : ℤ
  duration_days : ℤ
  threshold_value : ℚ
  start_value_smoothed : ℚ
  peak_value_smoothed : ℚ
  end_value_smoothed : ℚ
  median_count : ℚ
  median_crossings : ℕ
  avg_count_in_season : ℚ
  total_searches_year : ℚ
  total_searches_season : ℚ
  max_raw_count : ℚ
  min_raw_count : ℚ

/-- Lines 54-151 applied to an already-smoothed series `s`. -/
def analyzeWithSmoothed (s : List ℚ) (doy : List ℤ) (counts : List ℚ) (pct : ℚ) : GroupRecord :=
  let doy0 := listMinD 0 doy
  let aIdx := start_index s pct doy0
  let bIdx := npArgmax s
  let cIdx := end_index s pct doy0
  let a := doy0 + (aIdx : ℤ)
  let b := doy0 + (bIdx : ℤ)
  let c := doy0 + (cIdx : ℤ)
  { season_start_doy := a
    peak_doy := b
    season_end_doy := c
    duration_days := c - a
    threshold_value := threshold s pct
    start_value_smoothed := s.getD aIdx 0
    peak_value_smoothed := s.getD bIdx 0
    end_value_smoothed := s.getD cIdx 0
    median_count := npMedian counts
    median_crossings := median_crossings counts
    avg_count_in_season := avg_count_in_season doy counts a c
    total_searches_year := counts.sum
    total_searches_season := (season_counts doy counts a c).sum
    max_raw_count := max_raw_count counts
    min_raw_count := min_raw_count counts }

/-- One iteration of the group loop (lines 30-153): resample, smooth with
the weight vector `w`, detect boundaries, compile metrics. -/
def analyzeGroup (w : List ℚ) (doy : List ℤ) (counts : List ℚ) (pct : ℚ) : GroupRecord :=
  analyzeWithSmoothed (correlate1d w (continuousSeries doy counts)) doy counts pct

/-! ### The raw-nonzero strategy -/

/-- Modelled from the spec: the repository sources contain only the
smoothed-threshold algorithm; the second, selectable raw-nonzero strategy
described in spec sections 4.3 and 6 (season start at the first non-zero raw
observation, peak at the raw maximum, season end at the last non-zero raw
observation) has no implementation under `src/`.  This definition follows
the spec's words. -/
def rawNonzeroWindow (doy : List ℤ) (counts : List ℚ) : Option (ℤ × ℤ × ℤ) :=
  let pairs := doy.zip counts
  match pairs.find? (fun p => decide (p.2 ≠ 0)), pairs.reverse.find? (fun p => decide (p.2 ≠ 0)) with
  | some st, some en => some (st.1, doy.getD (npArgmax counts) 0, en.1)
  | _, _ => none

/-- Modelled from the spec: `duration_weeks` of the raw-nonzero strategy,
the season length in weeks. -/
def rawNonzeroDurationWeeks (doy : List ℤ) (counts : List ℚ) : ℚ :=
  match rawNonzeroWindow doy counts with
  | some (a, _, c) => ((c - a : ℤ) : ℚ) / 7
  | none => 0

/-! ### Grouping (lines 28-35 and 153-156):
`df.groupby(['location', 'search_term', 'year'])` iterates the distinct
key tuples in ascending lexicographic order (`sort=True` is the pandas
default), each with the sub-frame of rows carrying that key; one record is
appended per group. -/

/-- The identity of one input row (the columns the loop groups by). -/
structure Row where
  location : String
  search_term : String
  year : ℤ
deriving DecidableEq

/-- The grouping key with its lexicographic order. -/
def Row.key (r : Row) : Lex (String × Lex (String × ℤ)) :=
  toLex (r.location, toLex (r.search_term, r.year))

/-- The sequence of group keys the loop iterates: the distinct keys present
in the input, in ascending lexicographic order. -/
def groupKeys (rows : List Row) : List (Lex (String × Lex (String × ℤ))) :=
  List.insertionSort (fun a b => a ≤ b) (rows.map Row.key).dedup

/-- The groups themselves: each key with the input rows carrying it. -/
def groupedRows (rows : List Row) : List ((Lex (String × Lex (String × ℤ))) × List Row) :=
  (groupKeys rows).map (fun k => (k, rows.filter (fun r => decide (Row.key r = k))))

/-! ## Helper lemmas -/

theorem le_listMaxD {α : Type} [LinearOrder α] (d : α) :
    ∀ (s : List α), ∀ x ∈ s, x ≤ listMaxD d s
  | [], x, hx => absurd hx (List.not_mem_nil x)
  | [_], x, hx => by
    simp only [List.mem_singleton] at hx
    simp [hx, listMaxD]
  | a :: b :: t, x, hx => by
    rcases List.mem_cons.mp hx with rfl | hx
    · simp [listMaxD]
    · calc x ≤ listMaxD d (b :: t) := le_listMaxD d (b :: t) x hx
        _ ≤ listMaxD d (a :: b :: t) := by simp [listMaxD]

theorem listMinD_le {α : Type} [LinearOrder α] (d : α) :
    ∀ (s : List α), ∀ x ∈ s, listMinD d s ≤ x
  | [], x, hx => absurd hx (List.not_mem_nil x)
  | [_], x, hx => by
    simp only [List.mem_singleton] at hx
    simp [hx, listMinD]
  | a :: b :: t, x, hx => by
    rcases List.mem_cons.mp hx with rfl | hx
    · simp [listMinD]
    · calc listMinD d (a :: b :: t) ≤ listMinD d (b :: t) := by simp [listMinD]
        _ ≤ x := listMinD_le d (b :: t) x hx

theorem listMaxD_mem {α : Type} [LinearOrder α] (d : α) :
    ∀ (s : List α), s ≠ [] → listMaxD d s ∈ s
  | [], h => absurd rfl h
  | [a], _ => by simp [listMaxD]
  | a :: b :: t, _ => by
    simp only [listMaxD]
    rcases max_cases a (listMaxD d (b :: t)) with ⟨h, _⟩ | ⟨h, _⟩ <;> rw [h]
    · exact List.mem_cons_self a _
    · exact List.mem_cons_of_mem a (listMaxD_mem d (b :: t) (by simp))

theorem listMinD_mem {α : Type} [LinearOrder α] (d : α) :
    ∀ (s : List α), s ≠ [] → listMinD d s ∈ s
  | [], h => absurd rfl h
  | [a], _ => by simp [listMinD]
  | a :: b :: t, _ => by
    simp only [listMinD]
    rcases min_cases a (listMinD d (b :: t)) with ⟨h, _⟩ | ⟨h, _⟩ <;> rw [h]
    · exact List.mem_cons_self a _
    · exact List.mem_cons_of_mem a (listMinD_mem d (b :: t) (by simp))

theorem listMin_le_listMax {s : List ℚ} (hs : s ≠ []) : listMin s ≤ listMax s :=
  le_trans (listMinD_le 0 s _ (listMaxD_mem 0 s hs)) le_rfl

theorem npArgmax_lt_length : ∀ (s : List ℚ), s ≠ [] → npArgmax s < s.length
  | [], h => absurd rfl h
  | [_], _ => by simp [npArgmax]
  | a :: b :: t, _ => by
    by_cases h : listMax (b :: t) ≤ a
    · simp [npArgmax, h]
    · have ih := npArgmax_lt_length (b :: t) (by simp)
      simp only [npArgmax, if_neg h, List.length_cons]
      simp only [List.length_cons] at ih
      omega

theorem getD_npArgmax : ∀ (s : List ℚ), s ≠ [] → s.getD (npArgmax s) 0 = listMax s
  | [], h => absurd rfl h
  | [a], _ => by simp [npArgmax, listMax, listMaxD]
  | a :: b :: t, _ => by
    by_cases h : listMax (b :: t) ≤ a
    · simp only [npArgmax, if_pos h, List.getD_cons_zero]
      simp only [listMax, listMaxD] at h ⊢
      exact (max_eq_left h).symm
    · have ih := getD_npArgmax (b :: t) (by simp)
      simp only [npArgmax, if_neg h, List.getD_cons_succ, ih]
      simp only [listMax, listMaxD] at h ⊢
      exact (max_eq_right (le_of_lt (lt_of_not_le h))).symm

theorem mem_indicesBeforePeak {doy0 : ℤ} {n : ℕ} {b : ℤ} {i : ℕ} :
    i ∈ indicesBeforePeak doy0 n b ↔ i < n ∧ doy0 + (i : ℤ) < b := by
  simp [indicesBeforePeak, List.mem_filter, List.mem_range]

theorem mem_indicesAfterPeak {doy0 : ℤ} {n : ℕ} {b : ℤ} {i : ℕ} :
    i ∈ indicesAfterPeak doy0 n b ↔ i < n ∧ b < doy0 + (i : ℤ) := by
  simp [indicesAfterPeak, List.mem_filter, List.mem_range]

theorem start_index_le_peak (s : List ℚ) (pct : ℚ) (doy0 : ℤ) :
    start_index s pct doy0 ≤ npArgmax s := by
  unfold start_index
  split
  · next i hfind =>
    have hi := List.mem_of_find?_eq_some hfind
    rw [mem_indicesBeforePeak] at hi
    omega
  · exact Nat.zero_le _

theorem peak_le_end_index (s : List ℚ) (hs : s ≠ []) (pct : ℚ) (doy0 : ℤ) :
    npArgmax s ≤ end_index s pct doy0 := by
  have hp := npArgmax_lt_length s hs
  unfold end_index
  split
  · omega
  · split
    · next i hfind =>
      have hi := List.mem_of_find?_eq_some hfind
      rw [mem_indicesAfterPeak] at hi
      omega
    · omega

theorem end_index_lt_length (s : List ℚ) (hs : s ≠ []) (pct : ℚ) (doy0 : ℤ) :
    end_index s pct doy0 < s.length := by
  have hl : 0 < s.length := List.length_pos.mpr hs
  unfold end_index
  split
  · omega
  · split
    · next i hfind =>
      have hi := List.mem_of_find?_eq_some hfind
      rw [mem_indicesAfterPeak] at hi
      omega
    · omega

theorem filter_range_lt (n p : ℕ) :
    (List.range n).filter (fun i => decide (i < p)) = List.range (min p n) := by
  induction n with
  | zero => simp
  | succ n ih =>
    rw [List.range_succ, List.filter_append, ih]
    by_cases h : n < p
    · have h1 : min p (n + 1) = n + 1 := by omega
      have h2 : min p n = n := by omega
      rw [h1, h2, List.range_succ]
      simp [h]
    · have h1 : min p (n + 1) = min p n := by omega
      rw [h1]
      simp [h]

theorem filter_range_gt (n p : ℕ) :
    (List.range n).filter (fun i => decide (p < i)) = List.range' (p + 1) (n - (p + 1)) := by
  induction n with
  | zero => simp
  | succ n ih =>
    rw [List.range_succ, List.filter_append, ih]
    by_cases h : p < n
    · have h2 : (n + 1) - (p + 1) = (n - (p + 1)) + 1 := by omega
      rw [h2, List.range'_concat]
      have h3 : p + 1 + 1 * (n - (p + 1)) = n := by omega
      rw [h3]
      simp [h]
    · have h2 : (n + 1) - (p + 1) = 0 := by omega
      have h3 : n - (p + 1) = 0 := by omega
      rw [h2, h3]
      simp [h]

theorem indicesBeforePeak_eq (doy0 : ℤ) (n p : ℕ) :
    indicesBeforePeak doy0 n (doy0 + (p : ℤ)) = List.range (min p n) := by
  rw [indicesBeforePeak, ← filter_range_lt]
  apply List.filter_congr
  intro i _
  simp only [decide_eq_decide]
  omega

theorem indicesAfterPeak_eq (doy0 : ℤ) (n p : ℕ) :
    indicesAfterPeak doy0 n (doy0 + (p : ℤ)) = List.range' (p + 1) (n - (p + 1)) := by
  rw [indicesAfterPeak, ← filter_range_gt]
  apply List.filter_congr
  intro i _
  simp only [decide_eq_decide]
  omega

theorem npArgmax_eq_specPeakIdx : ∀ (s : List ℚ), s ≠ [] → npArgmax s = specPeakIdx s
  | [], h => absurd rfl h
  | [a], _ => by simp [npArgmax, specPeakIdx, listMax, listMaxD, List.findIdx_cons]
  | a :: b :: t, _ => by
    have hM : listMax (a :: b :: t) = max a (listMax (b :: t)) := by
      simp [listMax, listMaxD]
    by_cases h : listMax (b :: t) ≤ a
    · have ha : a = listMax (a :: b :: t) := by rw [hM, max_eq_left h]
      simp [npArgmax, h, specPeakIdx, List.findIdx_cons, ← ha]
    · have hlt : a < listMax (b :: t) := lt_of_not_le h
      have ha : listMax (a :: b :: t) = listMax (b :: t) := by rw [hM, max_eq_right hlt.le]
      have ih := npArgmax_eq_specPeakIdx (b :: t) (by simp)
      simp only [npArgmax, if_neg h, specPeakIdx, List.findIdx_cons, ha,
        decide_eq_false (ne_of_lt hlt), cond_false]
      rw [ih, specPeakIdx, List.findIdx_cons]

theorem start_index_eq_spec (s : List ℚ) (hs : s ≠ []) (pct : ℚ) (doy0 : ℤ) :
    start_index s pct doy0 = specStartIdx s (threshold s pct) := by
  have hp := npArgmax_lt_length s hs
  have hmin : min (npArgmax s) s.length = npArgmax s := by omega
  rw [start_index, specStartIdx, indicesBeforePeak_eq, hmin, npArgmax_eq_specPeakIdx s hs]

theorem end_index_eq_spec (s : List ℚ) (hs : s ≠ []) (pct : ℚ) (doy0 : ℤ) :
    end_index s pct doy0 = specEndIdx s (threshold s pct) := by
  rw [end_index, specEndIdx, indicesAfterPeak_eq, npArgmax_eq_specPeakIdx s hs]
  by_cases he : (List.range' (specPeakIdx s + 1) (s.length - (specPeakIdx s + 1))).isEmpty
  · rw [if_pos he]
    rw [List.isEmpty_iff] at he
    rw [he]
    simp [List.find?]
  · rw [if_neg he]

theorem find?_mono_of_sorted {p q : ℕ → Bool} :
    ∀ (l : List ℕ), l.Pairwise (· ≤ ·) → (∀ i, p i = true → q i = true) →
      ∀ x, l.find? p = some x → ∃ y, l.find? q = some y ∧ y ≤ x
  | [], _, _, x, h => by simp [List.find?] at h
  | a :: t, hpw, himp, x, h => by
    rcases List.pairwise_cons.mp hpw with ⟨ha, hpw'⟩
    by_cases hpa : p a = true
    · rw [List.find?_cons_of_pos _ hpa] at h
      injection h with h
      subst h
      exact ⟨a, List.find?_cons_of_pos _ (himp a hpa), le_rfl⟩
    · rw [List.find?_cons_of_neg _ (by simpa using hpa)] at h
      by_cases hqa : q a = true
      · exact ⟨a, List.find?_cons_of_pos _ hqa, ha x (List.mem_of_find?_eq_some h)⟩
      · obtain ⟨y, hy, hyx⟩ := find?_mono_of_sorted t hpw' himp x h
        refine ⟨y, ?_, hyx⟩
        rw [List.find?_cons_of_neg _ (by simpa using hqa)]
        exact hy

theorem threshold_mono (s : List ℚ) (hs : s ≠ []) {p1 p2 : ℚ} (h : p1 ≤ p2) :
    threshold s p1 ≤ threshold s p2 := by
  have hd : 0 ≤ listMax s - listMin s := by
    have := listMin_le_listMax hs
    linarith
  have hm : p1 / 100 * (listMax s - listMin s) ≤ p2 / 100 * (listMax s - listMin s) := by
    apply mul_le_mul_of_nonneg_right _ hd
    linarith
  unfold threshold
  linarith

theorem pairwise_le_indicesBeforePeak (doy0 : ℤ) (n : ℕ) (b : ℤ) :
    (indicesBeforePeak doy0 n b).Pairwise (· ≤ ·) :=
  ((List.pairwise_lt_range n).filter _).imp le_of_lt

theorem pairwise_le_indicesAfterPeak (doy0 : ℤ) (n : ℕ) (b : ℤ) :
    (indicesAfterPeak doy0 n b).Pairwise (· ≤ ·) :=
  ((List.pairwise_lt_range n).filter _).imp le_of_lt

theorem start_index_mono (s : List ℚ) (hs : s ≠ []) (doy0 : ℤ) {p1 p2 : ℚ} (h12 : p1 ≤ p2)
    (hex : ∃ i, i < npArgmax s ∧ threshold s p2 < s.getD i 0) :
    start_index s p1 doy0 ≤ start_index s p2 doy0 := by
  obtain ⟨i, hip, hiv⟩ := hex
  have hin : i ∈ indicesBeforePeak doy0 s.length (doy0 + (npArgmax s : ℤ)) := by
    rw [mem_indicesBeforePeak]
    have := npArgmax_lt_length s hs
    omega
  have hsome : ((indicesBeforePeak doy0 s.length (doy0 + (npArgmax s : ℤ))).find?
      (fun j => decide (threshold s p2 < s.getD j 0))).isSome := by
    rw [List.find?_isSome]
    exact ⟨i, hin, by simpa using hiv⟩
  obtain ⟨x2, hx2⟩ := Option.isSome_iff_exists.mp hsome
  have himp : ∀ j, (fun j => decide (threshold s p2 < s.getD j 0)) j = true →
      (fun j => decide (threshold s p1 < s.getD j 0)) j = true := by
    intro j hj
    simp only [decide_eq_true_eq] at hj ⊢
    exact lt_of_le_of_lt (threshold_mono s hs h12) hj
  obtain ⟨y, hy, hyx⟩ :=
    find?_mono_of_sorted _ (pairwise_le_indicesBeforePeak doy0 s.length _) himp x2 hx2
  unfold start_index
  rw [hx2, hy]
  exact hyx

theorem end_index_antimono (s : List ℚ) (hs : s ≠ []) (doy0 : ℤ) {p1 p2 : ℚ} (h12 : p1 ≤ p2) :
    end_index s p2 doy0 ≤ end_index s p1 doy0 := by
  have himp : ∀ j, (fun j => decide (s.getD j 0 ≤ threshold s p1)) j = true →
      (fun j => decide (s.getD j 0 ≤ threshold s p2)) j = true := by
    intro j hj
    simp only [decide_eq_true_eq] at hj ⊢
    exact le_trans hj (threshold_mono s hs h12)
  unfold end_index
  by_cases he : (indicesAfterPeak doy0 s.length (doy0 + (npArgmax s : ℤ))).isEmpty
  · rw [if_pos he, if_pos he]
  · rw [if_neg he, if_neg he]
    cases hf1 : (indicesAfterPeak doy0 s.length (doy0 + (npArgmax s : ℤ))).find?
        (fun j => decide (s.getD j 0 ≤ threshold s p1)) with
    | some x1 =>
      obtain ⟨y, hy, hyx⟩ :=
        find?_mono_of_sorted _ (pairwise_le_indicesAfterPeak doy0 s.length _) himp x1 hf1
      rw [hy]
      exact hyx
    | none =>
      cases hf2 : (indicesAfterPeak doy0 s.length (doy0 + (npArgmax s : ℤ))).find?
          (fun j => decide (s.getD j 0 ≤ threshold s p2)) with
      | some x2 =>
        have hx2 := List.mem_of_find?_eq_some hf2
        rw [mem_indicesAfterPeak] at hx2
        show x2 ≤ s.length - 1
        omega
      | none => exact le_rfl

theorem crossesAt_eq_true {m a b : ℚ} :
    crossesAt m a b = true ↔ (a < m ∧ m ≤ b) ∨ (m ≤ a ∧ b < m) := by
  simp [crossesAt]

theorem crossCount_eq_specCrossings (m : ℚ) : ∀ xs : List ℚ, crossCount m xs = specCrossings m xs
  | [] => by simp [crossCount, specCrossings]
  | [a] => by simp [crossCount, specCrossings]
  | a :: b :: t => by
    have ih := crossCount_eq_specCrossings m (b :: t)
    unfold crossCount specCrossings
    simp only [List.length_cons, Nat.add_sub_cancel, List.range_succ_eq_map,
      List.countP_cons, List.countP_map]
    unfold crossCount at ih
    simp only [List.length_cons, Nat.add_sub_cancel] at ih
    have hcomp : ((fun i => crossesAt m ((a :: b :: t).getD i 0) ((a :: b :: t).getD (i + 1) 0)) ∘
        (· + 1)) = fun i => crossesAt m ((b :: t).getD i 0) ((b :: t).getD (i + 1) 0) := by
      funext i
      simp [Function.comp, List.getD_cons_succ]
    rw [hcomp, ih]
    by_cases hc : (a < m ∧ m ≤ b) ∨ (m ≤ a ∧ b < m)
    · have : crossesAt m ((a :: b :: t).getD 0 0) ((a :: b :: t).getD 1 0) = true := by
        simpa [List.getD_cons_zero, List.getD_cons_succ, crossesAt_eq_true] using hc
      rw [this, if_pos hc]
      simp [Nat.add_comm]
    · have : crossesAt m ((a :: b :: t).getD 0 0) ((a :: b :: t).getD 1 0) = false := by
        rw [Bool.eq_false_iff]
        simpa [List.getD_cons_zero, List.getD_cons_succ, crossesAt_eq_true] using hc
      rw [this, if_neg hc]
      simp

theorem interpAt_zeros : ∀ (pts : List (ℤ × ℚ)), (∀ p ∈ pts, p.2 = 0) → ∀ x, interpAt pts x = 0
  | [], _, _ => rfl
  | [(a, y)], h, x => by
    have hy : y = 0 := h (a, y) (by simp)
    simp [interpAt, hy]
  | (x0, y0) :: (x1, y1) :: t, h, x => by
    have h0 : y0 = 0 := h (x0, y0) (by simp)
    have h1 : y1 = 0 := h (x1, y1) (by simp)
    rw [interpAt]
    by_cases hx : x ≤ x1
    · rw [if_pos hx, h0, h1]
      ring
    · rw [if_neg hx]
      exact interpAt_zeros ((x1, y1) :: t) (fun p hp => h p (List.mem_cons_of_mem _ hp)) x

theorem getD_replicate_zero (n j : ℕ) : (List.replicate n (0:ℚ)).getD j 0 = 0 := by
  induction n generalizing j with
  | zero => simp [List.getD]
  | succ n ih =>
    cases j with
    | zero => simp [List.replicate_succ]
    | succ j =>
      rw [List.replicate_succ, List.getD_cons_succ]
      exact ih j

theorem foldl_add_zero (f : ℕ → ℚ) (hf : ∀ k, f k = 0) :
    ∀ (l : List ℕ) (a : ℚ), l.foldl (fun acc k => acc + f k) a = a
  | [], _ => rfl
  | k :: t, a => by
    rw [List.foldl_cons, hf k, add_zero]
    exact foldl_add_zero f hf t a

theorem correlate1d_replicate_zero (w : List ℚ) (n : ℕ) :
    correlate1d w (List.replicate n 0) = List.replicate n 0 := by
  simp only [correlate1d, List.length_replicate]
  rw [List.eq_replicate_iff]
  refine ⟨by rw [List.length_map, List.length_range], ?_⟩
  intro b hb
  rw [List.mem_map] at hb
  obtain ⟨i, _, rfl⟩ := hb
  exact foldl_add_zero
    (fun k => w.getD k 0 * (List.replicate n (0:ℚ)).getD
      (reflectIdx n ((i : ℤ) + (k : ℤ) - ((w.length / 2 : ℕ) : ℤ))) 0)
    (fun k => by simp only [getD_replicate_zero, mul_zero]) _ _

theorem listMaxD_replicate {α : Type} [LinearOrder α] (d c : α) :
    ∀ n : ℕ, listMaxD d (List.replicate (n + 1) c) = c
  | 0 => rfl
  | n + 1 => by
    rw [List.replicate_succ, List.replicate_succ]
    rw [show listMaxD d (c :: c :: List.replicate n c) =
      max c (listMaxD d (c :: List.replicate n c)) from rfl]
    rw [← List.replicate_succ, listMaxD_replicate d c n, max_self]

theorem listMinD_replicate {α : Type} [LinearOrder α] (d c : α) :
    ∀ n : ℕ, listMinD d (List.replicate (n + 1) c) = c
  | 0 => rfl
  | n + 1 => by
    rw [List.replicate_succ, List.replicate_succ]
    rw [show listMinD d (c :: c :: List.replicate n c) =
      min c (listMinD d (c :: List.replicate n c)) from rfl]
    rw [← List.replicate_succ, listMinD_replicate d c n, min_self]

theorem threshold_replicate_zero (n : ℕ) (pct : ℚ) :
    threshold (List.replicate (n + 1) (0:ℚ)) pct = 0 := by
  rw [threshold, listMax, listMin, listMaxD_replicate, listMinD_replicate]
  ring

theorem npArgmax_replicate_zero : ∀ n : ℕ, npArgmax (List.replicate (n + 1) (0:ℚ)) = 0
  | 0 => rfl
  | n + 1 => by
    rw [List.replicate_succ, List.replicate_succ]
    rw [show npArgmax ((0:ℚ) :: 0 :: List.replicate n 0) =
      if listMax ((0:ℚ) :: List.replicate n 0) ≤ 0 then 0
      else npArgmax ((0:ℚ) :: List.replicate n 0) + 1 from rfl]
    rw [← List.replicate_succ]
    rw [show listMax (List.replicate (n + 1) (0:ℚ)) = 0 from listMaxD_replicate 0 0 n]
    simp

theorem start_index_replicate_zero (n : ℕ) (pct : ℚ) (doy0 : ℤ) :
    start_index (List.replicate (n + 1) (0:ℚ)) pct doy0 = 0 := by
  rw [start_index, npArgmax_replicate_zero]
  have hempty : indicesBeforePeak doy0 (List.replicate (n + 1) (0:ℚ)).length
      (doy0 + ((0 : ℕ) : ℤ)) = [] := by
    rw [indicesBeforePeak_eq]
    simp
  rw [hempty]
  rfl

theorem end_index_replicate_zero (n : ℕ) (hn : 0 < n) (pct : ℚ) (doy0 : ℤ) :
    end_index (List.replicate (n + 1) (0:ℚ)) pct doy0 = 1 := by
  obtain ⟨m, rfl⟩ : ∃ m, n = m + 1 := ⟨n - 1, by omega⟩
  rw [end_index, npArgmax_replicate_zero]
  have hlist : indicesAfterPeak doy0 (List.replicate (m + 1 + 1) (0:ℚ)).length
      (doy0 + ((0 : ℕ) : ℤ)) = 1 :: List.range' 2 m := by
    rw [indicesAfterPeak_eq, List.length_replicate]
    have h1 : (m + 1 + 1) - (0 + 1) = m + 1 := by omega
    rw [h1, List.range'_succ]
  rw [hlist]
  have hpred : (fun i => decide ((List.replicate (m + 1 + 1) (0:ℚ)).getD i 0 ≤
      threshold (List.replicate (m + 1 + 1) (0:ℚ)) pct)) 1 = true := by
    simp only [getD_replicate_zero, threshold_replicate_zero, decide_eq_true_eq]
    exact le_rfl
  have hfind : List.find? (fun i => decide ((List.replicate (m + 1 + 1) (0:ℚ)).getD i 0 ≤
      threshold (List.replicate (m + 1 + 1) (0:ℚ)) pct)) (1 :: List.range' 2 m) = some 1 :=
    List.find?_cons_of_pos _ hpred
  rw [if_neg (by simp), hfind]

theorem continuousSeries_allzero :
    continuousSeries [1, 8, 15, 22, 29] [0, 0, 0, 0, 0] = List.replicate 29 0 := by
  rw [continuousSeries, List.eq_replicate_iff]
  constructor
  · rw [List.length_map]
    norm_num [doyGrid, listMinD, listMaxD, List.length_map, List.length_range]
    decide
  · intro b hb
    rw [List.mem_map] at hb
    obtain ⟨d, _, rfl⟩ := hb
    apply interpAt_zeros
    intro p hp
    simp only [List.zip_cons_cons, List.zip_nil_right, List.mem_cons, List.not_mem_nil,
      or_false] at hp
    rcases hp with rfl | rfl | rfl | rfl | rfl <;> rfl

theorem analyzeGroup_allzero (w : List ℚ) :
    analyzeGroup w [1, 8, 15, 22, 29] [0, 0, 0, 0, 0] 20 =
      { season_start_doy := 1, peak_doy := 1, season_end_doy := 2, duration_days := 1,
        threshold_value := 0, start_value_smoothed := 0, peak_value_smoothed := 0,
        end_value_smoothed := 0, median_count := 0, median_crossings := 0,
        avg_count_in_season := 0, total_searches_year := 0, total_searches_season := 0,
        max_raw_count := 0, min_raw_count := 0 } := by
  rw [analyzeGroup, continuousSeries_allzero, correlate1d_replicate_zero]
  have hdoy0 : listMinD 0 ([1, 8, 15, 22, 29] : List ℤ) = 1 := by norm_num [listMinD]
  have hstart := start_index_replicate_zero 28 (20 : ℚ) 1
  have hpeak := npArgmax_replicate_zero 28
  have hend := end_index_replicate_zero 28 (by omega) (20 : ℚ) 1
  have hthr := threshold_replicate_zero 28 (20 : ℚ)
  simp only [analyzeWithSmoothed, hdoy0, show (28 : ℕ) + 1 = 29 from rfl] at *
  rw [hstart, hpeak, hend, hthr]
  simp only [GroupRecord.mk.injEq]
  norm_num [getD_replicate_zero, median_crossings, crossCount, crossesAt, npMedian,
    List.insertionSort, List.orderedInsert, List.range_succ, List.countP_cons,
    List.countP_append, avg_count_in_season, season_counts, non_zero_counts,
    max_raw_count, min_raw_count, listMax, listMin, listMaxD, listMinD, List.filter]

/-! ## Claim theorems -/

/-- C1: for every group with at least one observation (hence a nonempty
smoothed series), the boundary detector's day-of-year results satisfy
`season_start_doy ≤ peak_doy ≤ season_end_doy`, and
`duration_days = season_end_doy - season_start_doy` is never negative. -/
theorem boundary_ordered (s : List ℚ) (hs : s ≠ []) (pct : ℚ) (doy0 : ℤ) :
    A_doy s pct doy0 ≤ B_doy s doy0 ∧ B_doy s doy0 ≤ C_doy s pct doy0 ∧
      duration_days s pct doy0 = C_doy s pct doy0 - A_doy s pct doy0 ∧
      0 ≤ duration_days s pct doy0 := by
  have h1 := start_index_le_peak s pct doy0
  have h2 := peak_le_end_index s hs pct doy0
  unfold duration_days A_doy B_doy C_doy at *
  refine ⟨by omega, by omega, rfl, by omega⟩

/-- Witness for C1 at the concrete smoothed series `[1]`. -/
theorem boundary_ordered_witness :
    A_doy [1] 20 1 ≤ B_doy [1] 1 ∧ B_doy [1] 1 ≤ C_doy [1] 20 1 ∧
      duration_days [1] 20 1 = C_doy [1] 20 1 - A_doy [1] 20 1 ∧
      0 ≤ duration_days [1] 20 1 :=
  boundary_ordered [1] (by simp) 20 1

/-- C2: for every group, the season window computed by the code equals the
reference definition: the peak is the earliest index attaining the maximum
of the smoothed series; the start is the first index strictly before the
peak whose smoothed value strictly exceeds the threshold, defaulting to the
domain's first index; the end is the first index strictly after the peak
whose smoothed value is at or below the threshold, defaulting to the
domain's last index. -/
theorem season_window_matches_spec (s : List ℚ) (hs : s ≠ []) (pct : ℚ) (doy0 : ℤ) :
    npArgmax s = specPeakIdx s ∧
      start_index s pct doy0 = specStartIdx s (threshold s pct) ∧
      end_index s pct doy0 = specEndIdx s (threshold s pct) :=
  ⟨npArgmax_eq_specPeakIdx s hs, start_index_eq_spec s hs pct doy0,
    end_index_eq_spec s hs pct doy0⟩

/-- Witness for C2 at the concrete smoothed series `[0, 6, 10, 0]`. -/
theorem season_window_matches_spec_witness :
    npArgmax [0, 6, 10, 0] = specPeakIdx [0, 6, 10, 0] ∧
      start_index [0, 6, 10, 0] 20 1 = specStartIdx [0, 6, 10, 0] (threshold [0, 6, 10, 0] 20) ∧
      end_index [0, 6, 10, 0] 20 1 = specEndIdx [0, 6, 10, 0] (threshold [0, 6, 10, 0] 20) :=
  season_window_matches_spec [0, 6, 10, 0] (by simp) 20 1

/-- C3 counterexample: on the smoothed series `[0, 6, 10, 0]` (days 1-4),
raising `threshold_pct` from 20 to 80 moves the start back to the domain
default (no pre-peak value exceeds the higher threshold), growing
`duration_days` from 2 to 3 — so a higher threshold can increase the
duration. -/
theorem duration_pct_mono_cex :
    ¬ (duration_days [0, 6, 10, 0] 80 1 ≤ duration_days [0, 6, 10, 0] 20 1) := by
  have h80 : duration_days [0, 6, 10, 0] 80 1 = 3 := by
    norm_num [duration_days, A_doy, C_doy, start_index, end_index, npArgmax, listMax, listMaxD,
      threshold, listMin, listMinD, indicesBeforePeak, indicesAfterPeak, List.range_succ,
      List.find?]
  have h20 : duration_days [0, 6, 10, 0] 20 1 = 2 := by
    norm_num [duration_days, A_doy, C_doy, start_index, end_index, npArgmax, listMax, listMaxD,
      threshold, listMin, listMinD, indicesBeforePeak, indicesAfterPeak, List.range_succ,
      List.find?]
  rw [h80, h20]
  omega

/-- C3 amended: with sigma (hence the smoothed series) fixed, raising
`threshold_pct` never moves the season end later; and it never increases
`duration_days` provided some index strictly before the peak still exceeds
the higher threshold.  (When no pre-peak value clears the higher threshold
the start falls back to the domain's first index, which can lengthen the
window, as the counterexample shows.) -/
theorem duration_pct_mono_amended (s : List ℚ) (hs : s ≠ []) (doy0 : ℤ) (p1 p2 : ℚ)
    (h12 : p1 ≤ p2) :
    C_doy s p2 doy0 ≤ C_doy s p1 doy0 ∧
      ((∃ i, i < npArgmax s ∧ threshold s p2 < s.getD i 0) →
        duration_days s p2 doy0 ≤ duration_days s p1 doy0) := by
  have hend := end_index_antimono s hs doy0 h12
  refine ⟨by unfold C_doy; omega, fun hex => ?_⟩
  have hstart := start_index_mono s hs doy0 h12 hex
  unfold duration_days A_doy C_doy
  omega

/-- Witness for C3 (amended) on `[0, 6, 10, 0]` with thresholds 20 and 40:
the pre-peak value 6 exceeds the higher threshold 4, so the duration is
non-increasing there. -/
theorem duration_pct_mono_amended_witness :
    C_doy [0, 6, 10, 0] 40 1 ≤ C_doy [0, 6, 10, 0] 20 1 ∧
      duration_days [0, 6, 10, 0] 40 1 ≤ duration_days [0, 6, 10, 0] 20 1 := by
  have h := duration_pct_mono_amended [0, 6, 10, 0] (by simp) 1 20 40 (by norm_num)
  refine ⟨h.1, h.2 ⟨1, ?_, ?_⟩⟩
  · show 1 < npArgmax [0, 6, 10, 0]
    norm_num [npArgmax, listMax, listMaxD]
  · show threshold [0, 6, 10, 0] 40 < List.getD [0, 6, 10, 0] 1 0
    norm_num [threshold, listMax, listMin, listMaxD, listMinD]

/-- C6 counterexample: on the raw series `[1, 1, 5, 5, 1, 1]` the all-weeks
median is 1 and the code counts 0 median-crossings, not 2: the transitions
1 to 5 and 5 to 1 never move from strictly below the median to at-or-above
it (or vice versa), because 1 is not strictly below the median. -/
theorem median_crossings_example_cex : median_crossings [1, 1, 5, 5, 1, 1] ≠ 2 := by
  have h : median_crossings [1, 1, 5, 5, 1, 1] = 0 := by
    norm_num [median_crossings, crossCount, crossesAt, npMedian, List.insertionSort,
      List.orderedInsert, List.range_succ, List.countP_append, List.countP_cons]
  rw [h]
  omega

/-- C6 amended: the median-crossings count is the number of adjacent-index
transitions in the raw (non-interpolated) series, scanned left to right,
where the value moves from strictly below the all-weeks median to
at-or-above it or vice versa; on the raw series `[1, 1, 5, 5, 1, 1]` (median
1) the count is 0, since the value 1 is never strictly below the median. -/
theorem median_crossings_spec :
    (∀ xs : List ℚ, median_crossings xs = specCrossings (npMedian xs) xs) ∧
      npMedian [1, 1, 5, 5, 1, 1] = 1 ∧ median_crossings [1, 1, 5, 5, 1, 1] = 0 := by
  refine ⟨fun xs => crossCount_eq_specCrossings (npMedian xs) xs, ?_, ?_⟩
  · norm_num [npMedian, List.insertionSort, List.orderedInsert]
  · norm_num [median_crossings, crossCount, crossesAt, npMedian, List.insertionSort,
      List.orderedInsert, List.range_succ, List.countP_append, List.countP_cons]

/-- C7 counterexample: on the raw counts `[0, 5]` the reported minimum is 0
(the minimum over all weeks), not 5 (the minimum over active weeks), so the
minimum statistic is not computed over active weeks only. -/
theorem raw_stats_active_cex : min_raw_count [0, 5] ≠ listMin (non_zero_counts [0, 5]) := by
  have h1 : min_raw_count [0, 5] = 0 := by
    norm_num [min_raw_count, listMin, listMinD]
  have h2 : listMin (non_zero_counts [0, 5]) = 5 := by
    norm_num [non_zero_counts, listMin, listMinD, List.filter]
  rw [h1, h2]
  norm_num

/-- C7 amended: the reported maximum and minimum raw-count statistics are
computed over all weeks — the maximum coincides with the active-week
maximum whenever at least one week is active (counts being non-negative),
but the reported minimum is 0 whenever any week is inactive; the average is
computed over the active weeks restricted to the season window, so it
equals the all-active-weeks average when the window covers every
observation. -/
theorem raw_stats_all_weeks (counts : List ℚ) (hnn : ∀ x ∈ counts, 0 ≤ x)
    (hact : ∃ x ∈ counts, 0 < x) :
    max_raw_count counts = listMax (non_zero_counts counts) ∧
      ((∃ x ∈ counts, x = 0) → min_raw_count counts = 0) ∧
      ∀ (doy : List ℤ) (a c : ℤ), (∀ p ∈ doy.zip counts, a ≤ p.1 ∧ p.1 ≤ c) →
        counts.length ≤ doy.length →
        avg_count_in_season doy counts a c =
          (non_zero_counts counts).sum / ((non_zero_counts counts).length : ℚ) := by
  obtain ⟨x, hx, hxpos⟩ := hact
  have hne : counts ≠ [] := by rintro rfl; cases hx
  have hMpos : 0 < listMax counts := lt_of_lt_of_le hxpos (le_listMaxD 0 counts x hx)
  have hMmem : listMax counts ∈ non_zero_counts counts := by
    rw [non_zero_counts, List.mem_filter]
    exact ⟨listMaxD_mem 0 counts hne, by simpa using hMpos⟩
  have hxmem : x ∈ non_zero_counts counts := by
    rw [non_zero_counts, List.mem_filter]
    exact ⟨hx, by simpa using hxpos⟩
  refine ⟨?_, ?_, ?_⟩
  · have h1 : listMax counts ≤ listMax (non_zero_counts counts) :=
      le_listMaxD 0 _ _ hMmem
    have h2 : listMax (non_zero_counts counts) ≤ listMax counts := by
      have hmem := listMaxD_mem 0 (non_zero_counts counts) (List.ne_nil_of_mem hMmem)
      exact le_listMaxD 0 counts _ (List.mem_of_mem_filter hmem)
    rw [max_raw_count]
    exact le_antisymm h1 h2
  · rintro ⟨z, hz, hz0⟩
    have hle : listMin counts ≤ 0 := hz0 ▸ listMinD_le 0 counts z hz
    have hge : 0 ≤ listMin counts := hnn _ (listMinD_mem 0 counts hne)
    rw [min_raw_count]
    exact le_antisymm hle hge
  · intro doy a c hcover hlen
    have hfilter : (doy.zip counts).filter (fun p => decide (a ≤ p.1) && decide (p.1 ≤ c)) =
        doy.zip counts := by
      rw [List.filter_eq_self]
      intro p hp
      have hc := hcover p hp
      simp [hc.1, hc.2]
    have hseason : season_counts doy counts a c = counts := by
      rw [season_counts, hfilter]
      exact List.map_snd_zip doy counts hlen
    have hnzne : ¬ (non_zero_counts counts).isEmpty = true := by
      rw [List.isEmpty_iff]
      exact List.ne_nil_of_mem hxmem
    rw [avg_count_in_season, hseason, if_neg hnzne]

/-- Witness for C7 (amended) at raw counts `[0, 5]` on days `[1, 2]` with a
season window covering both days. -/
theorem raw_stats_all_weeks_witness :
    max_raw_count [0, 5] = listMax (non_zero_counts [0, 5]) ∧
      min_raw_count [0, 5] = 0 ∧
      avg_count_in_season [1, 2] [0, 5] 1 2 =
        (non_zero_counts [0, 5]).sum / ((non_zero_counts [0, 5]).length : ℚ) := by
  have h := raw_stats_all_weeks [0, 5] (by norm_num) ⟨5, by simp, by norm_num⟩
  refine ⟨h.1, h.2.1 ⟨0, by simp, rfl⟩, h.2.2 [1, 2] 1 2 ?_ (by simp)⟩
  intro p hp
  simp only [List.zip_cons_cons, List.zip_nil_right, List.mem_cons, List.not_mem_nil,
    or_false] at hp
  rcases hp with rfl | rfl <;> norm_num

/-- C9 counterexample: `sigma = -1/5` is nonpositive, yet the smoothing call
raises nothing at all: the kernel radius `int(4 * (-1/5) + 0.5) = 0` is
accepted and `sigma ** 2 = 1/25` is nonzero, so the filter degenerates to
the identity kernel.  The repository code itself performs no sigma
validation and no `InvalidParameterError` exists in it. -/
theorem sigma_check_cex : (-1/5 : ℚ) ≤ 0 ∧ gaussianFilterCheck (-1/5) = Except.ok () := by
  refine ⟨by norm_num, ?_⟩
  have hr : gaussianRadius (-1/5) = 0 := by
    rw [gaussianRadius, pyint, if_neg (by norm_num)]
    rw [Int.ceil_eq_iff]
    constructor <;> norm_num
  rw [gaussianFilterCheck, hr, if_neg (by norm_num), if_neg (by norm_num)]

/-- C9 amended: the repository code forwards sigma unchecked to the external
Gaussian filter, whose parameter handling rejects `sigma ≤ -3/8` with a
negative-radius error and fails with a division-by-zero for `sigma = 0`,
but raises nothing for any other sigma: every `sigma` in `(-3/8, 0)` is
accepted (the kernel degenerates to the identity), as is every positive
sigma; no `InvalidParameterError` is ever produced. -/
theorem sigma_check_behavior (sigma : ℚ) :
    (sigma ≤ -3/8 → gaussianFilterCheck sigma = Except.error SmoothError.radiusNegative) ∧
      (sigma = 0 → gaussianFilterCheck sigma = Except.error SmoothError.divisionByZero) ∧
      (-3/8 < sigma → sigma ≠ 0 → gaussianFilterCheck sigma = Except.ok ()) := by
  refine ⟨fun hle => ?_, fun h0 => ?_, fun hgt hne => ?_⟩
  · have hx : 4 * sigma + 1/2 ≤ -1 := by linarith
    have hneg : ¬ (0 : ℚ) ≤ 4 * sigma + 1/2 := by linarith
    have hr : gaussianRadius sigma ≤ -1 := by
      rw [gaussianRadius, pyint, if_neg hneg]
      rw [show (-1 : ℤ) = ((-1 : ℤ)) from rfl]
      exact Int.ceil_le.mpr (by exact_mod_cast hx)
    rw [gaussianFilterCheck, if_pos (by omega)]
  · subst h0
    have hr : gaussianRadius 0 = 0 := by
      rw [gaussianRadius, pyint, if_pos (by norm_num)]
      rw [Int.floor_eq_iff]
      constructor <;> norm_num
    rw [gaussianFilterCheck, hr, if_neg (by norm_num), if_pos (by norm_num)]
  · have hr : 0 ≤ gaussianRadius sigma := by
      rw [gaussianRadius, pyint]
      by_cases hnn : (0 : ℚ) ≤ 4 * sigma + 1/2
      · rw [if_pos hnn]
        exact Int.floor_nonneg.mpr hnn
      · rw [if_neg hnn]
        have h1 : (-1 : ℚ) < 4 * sigma + 1/2 := by linarith
        have h2 : (-1 : ℚ) < (⌈(4 * sigma + 1/2 : ℚ)⌉ : ℚ) := lt_of_lt_of_le h1 (Int.le_ceil _)
        have h3 : (-1 : ℤ) < ⌈(4 * sigma + 1/2 : ℚ)⌉ := by exact_mod_cast h2
        omega
    have hsq : ¬ (sigma * sigma = 0) := by
      rw [mul_self_eq_zero]
      exact hne
    rw [gaussianFilterCheck, if_neg (by omega), if_neg hsq]

/-- Witness for C9 (amended) at `sigma = 1`: the filter accepts it. -/
theorem sigma_check_behavior_witness : gaussianFilterCheck 1 = Except.ok () :=
  (sigma_check_behavior 1).2.2 (by norm_num) (by norm_num)

/-- C8 (against the spec-modelled raw-nonzero strategy, absent from the
sources): on raw counts `[0, 3, 10, 4, 0]` at days `[1, 8, 15, 22, 29]` the
season starts at day 8 (first non-zero), peaks at day 15 (value 10), ends
at day 22 (last non-zero), and `duration_weeks = 2`. -/
theorem raw_nonzero_strategy_example :
    rawNonzeroWindow [1, 8, 15, 22, 29] [0, 3, 10, 4, 0] = some (8, 15, 22) ∧
      rawNonzeroDurationWeeks [1, 8, 15, 22, 29] [0, 3, 10, 4, 0] = 2 := by
  have hw : rawNonzeroWindow [1, 8, 15, 22, 29] [0, 3, 10, 4, 0] = some (8, 15, 22) := by
    norm_num [rawNonzeroWindow, npArgmax, listMax, listMaxD, List.find?]
  refine ⟨hw, ?_⟩
  rw [rawNonzeroDurationWeeks, hw]
  norm_num

/-- C4 counterexample: on raw counts `[0, 0, 0, 0, 0]` at days
`[1, 8, 15, 22, 29]` the smoothed series is identically zero (here shown
with the identity kernel `[1]`, representative because smoothing an all-zero
series yields zeros for every kernel), so every index after the peak is at
or below the threshold 0 and the season end is day 2 — the first grid day
after the peak — with duration 1, not day 29 with duration 28. -/
theorem allzero_group_cex :
    (analyzeGroup [1] [1, 8, 15, 22, 29] [0, 0, 0, 0, 0] 20).season_end_doy = 2 ∧
      (analyzeGroup [1] [1, 8, 15, 22, 29] [0, 0, 0, 0, 0] 20).duration_days = 1 ∧
      (analyzeGroup [1] [1, 8, 15, 22, 29] [0, 0, 0, 0, 0] 20).season_end_doy ≠ 29 ∧
      (analyzeGroup [1] [1, 8, 15, 22, 29] [0, 0, 0, 0, 0] 20).duration_days ≠ 28 := by
  rw [analyzeGroup_allzero]
  refine ⟨rfl, rfl, by norm_num, by norm_num⟩

/-- C4 amended: for every smoothing kernel, the all-zero group
`[0, 0, 0, 0, 0]` at days `[1, 8, 15, 22, 29]` produces (without error) a
record with threshold 0, season start day 1, peak day 1, season end day 2
(the first grid day after the peak, since the whole series is at or below
the threshold), duration 1, and zeros for the active-week statistics. -/
theorem allzero_group_record (w : List ℚ) :
    (analyzeGroup w [1, 8, 15, 22, 29] [0, 0, 0, 0, 0] 20).threshold_value = 0 ∧
      (analyzeGroup w [1, 8, 15, 22, 29] [0, 0, 0, 0, 0] 20).season_start_doy = 1 ∧
      (analyzeGroup w [1, 8, 15, 22, 29] [0, 0, 0, 0, 0] 20).peak_doy = 1 ∧
      (analyzeGroup w [1, 8, 15, 22, 29] [0, 0, 0, 0, 0] 20).season_end_doy = 2 ∧
      (analyzeGroup w [1, 8, 15, 22, 29] [0, 0, 0, 0, 0] 20).duration_days = 1 ∧
      (analyzeGroup w [1, 8, 15, 22, 29] [0, 0, 0, 0, 0] 20).avg_count_in_season = 0 ∧
      (analyzeGroup w [1, 8, 15, 22, 29] [0, 0, 0, 0, 0] 20).max_raw_count = 0 ∧
      (analyzeGroup w [1, 8, 15, 22, 29] [0, 0, 0, 0, 0] 20).min_raw_count = 0 ∧
      (analyzeGroup w [1, 8, 15, 22, 29] [0, 0, 0, 0, 0] 20).total_searches_year = 0 ∧
      (analyzeGroup w [1, 8, 15, 22, 29] [0, 0, 0, 0, 0] 20).total_searches_season = 0 := by
  rw [analyzeGroup_allzero]
  exact ⟨rfl, rfl, rfl, rfl, rfl, rfl, rfl, rfl, rfl, rfl⟩

/-- C10: the output contains exactly one record per distinct
(location, search_term, year) group present in the input — the emitted key
sequence is strictly ascending in the lexicographic order (hence each
distinct key appears exactly once), contains exactly the keys present in
the input, has a nonempty row group behind every key, and is invariant
under permutation of the input rows. -/
theorem grouping_sorted_unique (rows rows2 : List Row) (hperm : rows.Perm rows2) :
    groupKeys rows = groupKeys rows2 ∧
      (groupKeys rows).Pairwise (fun a b => a < b) ∧
      (∀ k, k ∈ groupKeys rows ↔ k ∈ rows.map Row.key) ∧
      (∀ p ∈ groupedRows rows, p.2 ≠ []) := by
  have hsorted : ∀ rs : List Row, (groupKeys rs).Sorted (fun a b => a ≤ b) :=
    fun rs => List.sorted_insertionSort _ _
  have hnodup : ∀ rs : List Row, (groupKeys rs).Nodup := fun rs =>
    (List.perm_insertionSort _ _).symm.nodup (List.nodup_dedup _)
  have hmem : ∀ (rs : List Row) (k : Lex (String × Lex (String × ℤ))),
      k ∈ groupKeys rs ↔ k ∈ rs.map Row.key := fun rs k =>
    ((List.perm_insertionSort _ _).mem_iff).trans (List.mem_dedup)
  refine ⟨?_, ?_, hmem rows, ?_⟩
  · have hp : (groupKeys rows).Perm (groupKeys rows2) :=
      ((List.perm_insertionSort _ _).trans ((hperm.map Row.key).dedup)).trans
        (List.perm_insertionSort _ _).symm
    exact List.eq_of_perm_of_sorted hp (hsorted rows) (hsorted rows2)
  · exact (hsorted rows).lt_of_le (hnodup rows)
  · intro p hp
    rw [groupedRows, List.mem_map] at hp
    obtain ⟨k, hk, rfl⟩ := hp
    rw [hmem rows k, List.mem_map] at hk
    obtain ⟨r, hr, hkey⟩ := hk
    exact List.ne_nil_of_mem (List.mem_filter.mpr ⟨hr, by simp [hkey]⟩)

/-- Witness for C10 on two concrete rows given in both orders. -/
theorem grouping_sorted_unique_witness :
    groupKeys [Row.mk "b" "t" 2, Row.mk "a" "u" 1] =
        groupKeys [Row.mk "a" "u" 1, Row.mk "b" "t" 2] ∧
      (groupKeys [Row.mk "b" "t" 2, Row.mk "a" "u" 1]).Pairwise (fun a b => a < b) ∧
      (∀ k, k ∈ groupKeys [Row.mk "b" "t" 2, Row.mk "a" "u" 1] ↔
        k ∈ [Row.mk "b" "t" 2, Row.mk "a" "u" 1].map Row.key) ∧
      (∀ p ∈ groupedRows [Row.mk "b" "t" 2, Row.mk "a" "u" 1], p.2 ≠ []) :=
  grouping_sorted_unique [Row.mk "b" "t" 2, Row.mk "a" "u" 1]
    [Row.mk "a" "u" 1, Row.mk "b" "t" 2]
    (List.Perm.swap (Row.mk "a" "u" 1) (Row.mk "b" "t" 2) [])

/-- C5: the dynamic threshold equals
`min(smoothed) + (threshold_pct / 100) * (max(smoothed) - min(smoothed))`,
and when the smoothed series is constant the threshold equals that constant
value. -/
theorem threshold_formula (s : List ℚ) (hs : s ≠ []) (pct : ℚ) :
    threshold s pct = listMin s + pct / 100 * (listMax s - listMin s) ∧
      ∀ c : ℚ, (∀ x ∈ s, x = c) → threshold s pct = c := by
  refine ⟨rfl, fun c hc => ?_⟩
  have hmx : listMax s = c := hc _ (listMaxD_mem 0 s hs)
  have hmn : listMin s = c := hc _ (listMinD_mem 0 s hs)
  rw [threshold, listMax, listMin] at *
  rw [hmx, hmn]
  ring

/-- Witness for C5 at the constant series `[3, 3]`. -/
theorem threshold_formula_witness :
    threshold [3, 3] 20 = listMin [3, 3] + 20 / 100 * (listMax [3, 3] - listMin [3, 3]) ∧
      threshold [3, 3] 20 = 3 :=
  ⟨(threshold_formula [3, 3] (by simp) 20).1,
    (threshold_formula [3, 3] (by simp) 20).2 3 (by simp)⟩

end Phenology
